import Mathlib

/-!
Verification development for the realtime_warp_c video player
(src/video_player.cpp and src/video_player.c).

The definitions below are a shallow embedding of the player's core logic:

* the audio buffer shared between the decode loop and the SDL audio
  callback (globals audio_buf / audio_buf_size / audio_buf_index);
* the per-iteration timing state of the main loop (start, last_video,
  seeking, seek_target) over exact rationals in place of C doubles;
* the packet-routing decode loop and the send/receive decoder protocol,
  with the decoder abstracted as a FIFO queue of the frames each packet
  unlocks;
* the exit-code paths of both main functions.

Machine integers that matter are modelled as Nat/Int; the uint32 cursor
arithmetic in the buffer never wraps on the states the program can reach
(push keeps index at size, pull never moves index past size), which the
reachability lemmas below make precise.
-/

namespace VideoPlayer

/-! ## Audio ring buffer (video_player.cpp lines 101-103, 208-220, 321-334) -/

/-- The audio buffer globals of video_player.cpp: `audio_buf` (backing
allocation, modelled as a total byte map), `audio_buf_size` and
`audio_buf_index`. -/
structure ARB where
  buf : Nat → Nat
  size : Nat
  index : Nat

/-- Program start: `audio_buf = NULL`, both cursors zero. -/
def ARB.empty : ARB := ⟨fun _ => 0, 0, 0⟩

/-- Producer side, video_player.cpp lines 326-333: if
`audio_buf_size - audio_buf_index < bytes` then
`audio_buf_size = audio_buf_index + bytes` (realloc grows, content kept);
the decoded bytes are written at offset `audio_buf_index`; then
`audio_buf_index += bytes`.  Note the source advances `audio_buf_index`,
not only `audio_buf_size`. -/
def ARB.push (st : ARB) (data : List Nat) : ARB :=
  let bytes := data.length
  { buf := fun i =>
      if st.index ≤ i ∧ i < st.index + bytes then data.getD (i - st.index) 0 else st.buf i
    size := if st.size - st.index < bytes then st.index + bytes else st.size
    index := st.index + bytes }

/-- Consumer side, `audio_callback` (video_player.cpp lines 208-220): if
`audio_buf_index >= audio_buf_size` the whole request is zero-filled and
the state is untouched; otherwise `copy = min(audio_buf_size -
audio_buf_index, len)` bytes are copied out, `audio_buf_index += copy`,
and the remaining `len - copy` bytes are zero-filled. -/
def ARB.pull (st : ARB) (len : Nat) : ARB × List Nat :=
  if st.size ≤ st.index then
    (st, List.replicate len 0)
  else
    let copy := min (st.size - st.index) len
    ({ st with index := st.index + copy },
      ((List.range copy).map fun i => st.buf (st.index + i)) ++ List.replicate (len - copy) 0)

/-- Seek block, video_player.cpp line 307: `audio_buf_index = audio_buf_size = 0`. -/
def ARB.reset (st : ARB) : ARB := { st with index := 0, size := 0 }

/-- States of the audio buffer reachable by any sequence of the three
operations from program start. -/
inductive ARB.Reach : ARB → Prop
  | empty : ARB.Reach ARB.empty
  | push (st : ARB) (data : List Nat) : ARB.Reach st → ARB.Reach (st.push data)
  | pull (st : ARB) (len : Nat) : ARB.Reach st → ARB.Reach (st.pull len).1
  | reset (st : ARB) : ARB.Reach st → ARB.Reach st.reset

/-! ## Playback clock (video_player.cpp lines 293-308, 339-344)

C doubles are modelled as exact rationals; the claims under study are
about which comparisons the code makes, not about rounding. -/

/-- The timing state of the main loop: `start` (wall-clock anchor) and
`last_video` (value of `video_time` at the last presented frame). -/
structure ClockState where
  start : ℚ
  lastVideo : ℚ

/-- One main-loop iteration of the timing logic, at wall time `now`
(`glfwGetTime`), with `seekReq = some t` when the `seeking` flag is set
with `seek_target = t` microseconds.  `video_time = now - start` is
computed at line 298, BEFORE the seek block (lines 301-308) rewrites
`start = now - seek_target / 1000000.0`, so the presentation gate at
line 339 — `video_time - last_video >= 1.0/30.0`, setting `last_video =
video_time` when it fires — sees the stale `video_time` in the seek
iteration; the rebase takes effect from the next iteration on.  The
Bool result records whether a frame was rendered this iteration. -/
def clockStep (s : ClockState) (now : ℚ) (seekReq : Option ℤ) : ClockState × Bool :=
  let videoTime := now - s.start
  let s1 := match seekReq with
    | some t => { s with start := now - (t : ℚ) / 1000000 }
    | none => s
  if (1 : ℚ)/30 ≤ videoTime - s1.lastVideo then
    ({ s1 with lastVideo := videoTime }, true)
  else (s1, false)

/-- Wall-clock times of the presented frames along a run of the main
loop, one input pair (now, pending seek) per iteration. -/
def presentsOf (s : ClockState) : List (ℚ × Option ℤ) → List ℚ
  | [] => []
  | (now, req) :: rest =>
      if (clockStep s now req).2 then now :: presentsOf (clockStep s now req).1 rest
      else presentsOf (clockStep s now req).1 rest

/-! ## Decode loop (video_player.cpp lines 310-344)

The libav decoder pair send/receive is abstracted as a FIFO queue:
`avcodec_send_packet` enqueues the frames the packet unlocks and
`avcodec_receive_frame` dequeues one frame, reporting AVERROR(EAGAIN)
(NeedsMorePackets) on an empty queue. -/

/-- A decoded video frame: presentation timestamp in seconds (none for
AV_NOPTS_VALUE) and an identity tag for tracking frames through the
loop. -/
structure Frame where
  pts : Option ℚ
  id : Nat
deriving DecidableEq

/-- A demuxed packet, routed on `pkt.stream_index`: a video packet
carries the video frames it unlocks, an audio packet the byte payloads
of the audio frames it unlocks, and `other` is any packet of a stream
that is neither `vidx` nor `aidx`. -/
inductive Packet where
  | video (frames : List Frame)
  | audio (frames : List (List Nat))
  | other
deriving DecidableEq

/-- Decoder state: the queue of decoded frames not yet received. -/
structure Decoder (α : Type) where
  queue : List α
deriving DecidableEq

/-- `avcodec_send_packet`: the packet's frames join the queue. -/
def Decoder.send {α : Type} (d : Decoder α) (frames : List α) : Decoder α :=
  ⟨d.queue ++ frames⟩

/-- `avcodec_receive_frame`: pop one frame, or fail on an empty queue. -/
def Decoder.receive {α : Type} (d : Decoder α) : Option (α × Decoder α) :=
  match d.queue with
  | [] => none
  | f :: rest => some (f, ⟨rest⟩)

/-- The audio drain loop (video_player.cpp line 323): while receive
succeeds, append the frame's bytes to the audio buffer; it runs until
the queue is empty. -/
def audioDrainList : List (List Nat) → ARB → ARB
  | [], arb => arb
  | f :: rest, arb => audioDrainList rest (arb.push f)

/-- Handling of one audio packet (lines 321-334): send it, then drain
the decoder into the audio buffer until receive fails. -/
def audioPacketStep (adec : Decoder (List Nat)) (fs : List (List Nat)) (arb : ARB) :
    Decoder (List Nat) × ARB :=
  (⟨[]⟩, audioDrainList (adec.send fs).queue arb)

/-- The inner `while (!got_video)` loop (lines 310-337): read the next
packet (none at end of stream — `goto end`); a video packet is sent and
receive is called ONCE — on success the frame is the iteration's frame;
an audio packet is sent and fully drained into the audio buffer; other
packets are dropped.  Returns the decoded frame, the decoder and buffer
states, and the unread packets. -/
def decodeLoop (vdec : Decoder Frame) (adec : Decoder (List Nat)) (arb : ARB) :
    List Packet → Option (Frame × Decoder Frame × Decoder (List Nat) × ARB × List Packet)
  | [] => none
  | Packet.video fs :: rest =>
      match (vdec.send fs).receive with
      | some (f, v') => some (f, v', adec, arb, rest)
      | none => decodeLoop (vdec.send fs) adec arb rest
  | Packet.audio fs :: rest =>
      let r := audioPacketStep adec fs arb
      decodeLoop vdec r.1 r.2 rest
  | Packet.other :: rest => decodeLoop vdec adec arb rest

/-- The presentation gate at line 339, `video_time - last_video >=
1.0/30.0`.  The decoded frame `f` is in scope there (it is what gets
rendered) and is passed here to make explicit that the decision does not
consult it: no term of the body mentions `f`. -/
def presentDecision (f : Frame) (videoTime lastVideo : ℚ) : Bool :=
  decide ((1 : ℚ)/30 ≤ videoTime - lastVideo)

/-- Steady-state main loop (no pending seek): one entry of the result
per completed iteration, pairing the iteration's decoded frame with
whether the gate presented it.  `times` holds `glfwGetTime` per
iteration; the loop ends when the window closes (times exhausted) or at
end of stream (decodeLoop returns none).  A frame failing the gate is
dropped: nothing of it survives into the next iteration's state. -/
def playLoop (vdec : Decoder Frame) (adec : Decoder (List Nat)) (arb : ARB)
    (start lastVideo : ℚ) (packets : List Packet) :
    List ℚ → List (Frame × Bool)
  | [] => []
  | now :: ts =>
      match decodeLoop vdec adec arb packets with
      | none => []
      | some (f, v', a', arb', rest) =>
          if presentDecision f (now - start) lastVideo then
            (f, true) :: playLoop v' a' arb' start (now - start) rest ts
          else
            (f, false) :: playLoop v' a' arb' start lastVideo rest ts

/-! ## Seek handling (video_player.cpp lines 300-308, 353-355) -/

/-- ffmpeg's global time base: timestamps passed to `av_seek_frame` with
stream index -1 are in units of 1/AV_TIME_BASE seconds (microseconds),
and `seek_target` itself is produced in these units at line 354. -/
def AV_TIME_BASE : ℤ := 1000000

/-- The observable effects of the seek block. -/
structure SeekEffects where
  tsArg : ℤ
  backward : Bool
  vdecFlushed : Bool
  adecFlushed : Bool
  newStart : ℚ
  seekingAfter : Bool
  arbAfter : ARB

/-- The seek block (lines 301-308), run at the top of an iteration when
`seeking` is set: `av_seek_frame(fmt, -1, seek_target * AV_TIME_BASE,
AVSEEK_FLAG_BACKWARD)`; both decoders are flushed (the audio one when it
exists); `start = now - (seek_target / 1000000.0)`; the flag clears; the
audio buffer cursors are zeroed. -/
def seekStep (now : ℚ) (seek_target : ℤ) (adecPresent : Bool) (arb : ARB) : SeekEffects :=
  { tsArg := seek_target * AV_TIME_BASE
    backward := true
    vdecFlushed := true
    adecFlushed := adecPresent
    newStart := now - (seek_target : ℚ) / 1000000
    seekingAfter := false
    arbAfter := arb.reset }

/-! ## Stream opening and process exit codes
(video_player.cpp lines 225-265, 270-272, 383-427;
video_player.c lines 222-288, 325-361) -/

/-- `open_file` of video_player.cpp: fails (-1, modelled none) when the
container cannot be opened, stream info fails, no video stream exists,
or the VIDEO codec fails to open.  An AUDIO codec-open failure is not a
failure: `adec` is set to NULL and the call still succeeds.  The result
carries whether an audio decoder is active. -/
def open_file (containerOk streamInfoOk hasVideo vCodecOpenOk hasAudio aCodecOpenOk : Bool) :
    Option Bool :=
  if !containerOk then none
  else if !streamInfoOk then none
  else if !hasVideo then none
  else if !vCodecOpenOk then none
  else some (hasAudio && aCodecOpenOk)

/-- Exit code of video_player.cpp's `main`: 1 for wrong argument count,
SDL audio init failure, glfwInit failure, or window-creation failure.
`run` has return type void: when `open_file` fails it prints "Failed to
open file" to stderr and returns, after which `main` falls through to
cleanup and returns 0 — `openOk` cannot influence the exit code, which
the unused parameter makes explicit. -/
def mainCpp (argcIsTwo sdlInitOk glfwInitOk windowOk openOk : Bool) : Nat :=
  if !argcIsTwo then 1
  else if !sdlInitOk then 1
  else if !glfwInitOk then 1
  else if !windowOk then 1
  else 0

/-- Exit code of video_player.c's `main`: 1 for wrong argument count,
glfwInit failure, or window-creation failure; `runPlayer` calls
`exit(1)` when `openVideo` fails (container, stream, codec find/open, or
frame-alloc failures); otherwise 0. -/
def mainC (argcIsTwo glfwInitOk windowOk openOk : Bool) : Nat :=
  if !argcIsTwo then 1
  else if !glfwInitOk then 1
  else if !windowOk then 1
  else if !openOk then 1
  else 0

/-! ## Theorems about the audio ring buffer -/

theorem ARB.push_index (st : ARB) (data : List Nat) :
    (st.push data).index = st.index + data.length := rfl

theorem ARB.push_size (st : ARB) (data : List Nat) :
    (st.push data).size =
      if st.size - st.index < data.length then st.index + data.length else st.size := rfl

theorem ARB.pull_underrun (st : ARB) (len : Nat) (h : st.size ≤ st.index) :
    st.pull len = (st, List.replicate len 0) := by
  unfold ARB.pull
  rw [if_pos h]

/-- Invariant: the read cursor never passes the write cursor. -/
theorem ARB.index_le_size_of_reach {st : ARB} (h : ARB.Reach st) : st.index ≤ st.size := by
  induction h with
  | empty => exact Nat.le_refl 0
  | push st data _ ih =>
      rw [ARB.push_index, ARB.push_size]
      split
      · exact Nat.le_refl _
      · omega
  | pull st len _ ih =>
      by_cases hu : st.size ≤ st.index
      · rw [ARB.pull_underrun st len hu]
        exact ih
      · unfold ARB.pull
        rw [if_neg hu]
        simp only
        omega
  | reset st _ _ => exact Nat.le_refl 0

/-- In every reachable state the two cursors coincide: each push catches
`audio_buf_index` up to `audio_buf_size`, and from such a state pull
takes the underrun branch without moving either cursor. -/
theorem ARB.index_eq_size_of_reach {st : ARB} (h : ARB.Reach st) : st.index = st.size := by
  induction h with
  | empty => rfl
  | push st data _ ih =>
      rw [ARB.push_index, ARB.push_size]
      split
      · rfl
      · omega
  | pull st len _ ih =>
      rw [ARB.pull_underrun st len (le_of_eq ih.symm)]
      exact ih
  | reset st _ _ => rfl

/-- C1: refuted by the source.  The producer writes at `audio_buf_index`
and advances `audio_buf_index` itself, so after any operation sequence
the two cursors are equal and the callback takes the underrun branch:
every pull from a reachable state returns only zero bytes, never the
pushed data.  In particular, after a reset and a push of N bytes, a pull
of M ≥ N bytes returns M zero bytes rather than the N pushed bytes
followed by M - N zeros. -/
theorem c1_every_pull_returns_silence (st : ARB) (len : Nat) (h : ARB.Reach st) :
    (st.pull len).2 = List.replicate len 0 := by
  have hi := ARB.index_eq_size_of_reach h
  rw [ARB.pull_underrun st len (le_of_eq hi.symm)]

/-- Witness for C1's theorem: reset state, push the two bytes [7, 7],
pull 4 bytes — the output is four zero bytes. -/
theorem c1_silence_witness :
    ((ARB.empty.push [7, 7]).pull 4).2 = List.replicate 4 0 :=
  c1_every_pull_returns_silence (ARB.empty.push [7, 7]) 4
    (ARB.Reach.push ARB.empty [7, 7] ARB.Reach.empty)

/-- C2: refuted by the source.  Every push with a nonempty payload moves
the read cursor `audio_buf_index` forward by the pushed byte count (the
claim says a push moves only `size`). -/
theorem c2_push_advances_index (st : ARB) (data : List Nat) (h : data ≠ []) :
    (st.push data).index = st.index + data.length ∧ (st.push data).index ≠ st.index := by
  refine ⟨ARB.push_index st data, ?_⟩
  rw [ARB.push_index]
  have hl : data.length ≠ 0 := fun hl => h (List.eq_nil_of_length_eq_zero hl)
  omega

/-- Witness for C2's theorem: a push of [7, 7] from the reset state moves
`audio_buf_index` from 0 to 2. -/
theorem c2_push_witness :
    (ARB.empty.push [7, 7]).index = ARB.empty.index + 2 ∧
      (ARB.empty.push [7, 7]).index ≠ ARB.empty.index :=
  c2_push_advances_index ARB.empty [7, 7] (by decide)

/-- C5: confirmed.  `audio_callback` always writes exactly `len` bytes:
`min(size - index, len)` buffered bytes starting at the read cursor,
then zero fill; when `index ≥ size` the whole request is zeros.  The
operation is a total function of the state (it never waits for data). -/
theorem c5_pull_spec (st : ARB) (len : Nat) :
    (st.pull len).2.length = len ∧
    (st.pull len).2 =
      ((List.range (min (st.size - st.index) len)).map fun i => st.buf (st.index + i)) ++
        List.replicate (len - min (st.size - st.index) len) 0 ∧
    (st.size ≤ st.index → (st.pull len).2 = List.replicate len 0) := by
  by_cases h : st.size ≤ st.index
  · have hz : st.size - st.index = 0 := Nat.sub_eq_zero_of_le h
    rw [ARB.pull_underrun st len h]
    refine ⟨List.length_replicate len 0, ?_, fun _ => rfl⟩
    simp [hz]
  · unfold ARB.pull
    rw [if_neg h]
    refine ⟨?_, rfl, fun hc => absurd hc h⟩
    have hm : min (st.size - st.index) len ≤ len := Nat.min_le_right _ _
    simp only [List.length_append, List.length_map, List.length_range, List.length_replicate]
    omega

/-- Witness for C5's theorem: with size 0 and read cursor 5 (underrun), a
request for 3 bytes yields 3 zero bytes. -/
theorem c5_pull_witness :
    (ARB.pull ⟨fun _ => 0, 0, 5⟩ 3).2 = List.replicate 3 0 :=
  (c5_pull_spec ⟨fun _ => 0, 0, 5⟩ 3).2.2 (by decide)

/-! ## Theorems about the playback clock -/

theorem clockStep_none (s : ClockState) (now : ℚ) :
    clockStep s now none =
      if (1 : ℚ)/30 ≤ (now - s.start) - s.lastVideo then
        ({ s with lastVideo := now - s.start }, true)
      else (s, false) := rfl

theorem presentsOf_cons (s : ClockState) (now : ℚ) (req : Option ℤ)
    (rest : List (ℚ × Option ℤ)) :
    presentsOf s ((now, req) :: rest) =
      if (clockStep s now req).2 then now :: presentsOf (clockStep s now req).1 rest
      else presentsOf (clockStep s now req).1 rest := rfl

/-- With no pending seek, the first frame presented along a run is no
earlier than 1/30 s of video time past the last presentation recorded in
the state. -/
theorem presentsOf_head_lower (inputs : List (ℚ × Option ℤ)) :
    ∀ s : ClockState, (∀ x ∈ inputs, x.2 = none) →
      ∀ b ∈ (presentsOf s inputs).head?, s.start + s.lastVideo + 1/30 ≤ b := by
  induction inputs with
  | nil =>
      intro s _ b hb
      simp [presentsOf] at hb
  | cons x rest ih =>
      intro s h b hb
      obtain ⟨now, req⟩ := x
      have hreq : req = none := h (now, req) (List.mem_cons_self _ _)
      subst hreq
      have h' : ∀ y ∈ rest, y.2 = (none : Option ℤ) :=
        fun y hy => h y (List.mem_cons_of_mem _ hy)
      by_cases hc : (1 : ℚ)/30 ≤ (now - s.start) - s.lastVideo
      · have hstep : clockStep s now none = ({ s with lastVideo := now - s.start }, true) := by
          rw [clockStep_none, if_pos hc]
        have hpres : presentsOf s ((now, none) :: rest) =
            now :: presentsOf { s with lastVideo := now - s.start } rest := by
          rw [presentsOf_cons, hstep]
          rfl
        rw [hpres] at hb
        simp only [List.head?_cons, Option.mem_def, Option.some.injEq] at hb
        subst hb
        linarith
      · have hstep : clockStep s now none = (s, false) := by
          rw [clockStep_none, if_neg hc]
        have hpres : presentsOf s ((now, none) :: rest) = presentsOf s rest := by
          rw [presentsOf_cons, hstep]
          rfl
        rw [hpres] at hb
        exact ih s h' b hb

/-- C9 amended: along any stretch of the main loop in which no seek is
processed, the wall-clock times of two consecutive presented frames are
at least 1/30 s apart (the anchor is fixed, so the video-time cadence cap
is a wall-clock cadence cap). -/
theorem c9_no_seek_cadence (s : ClockState) (inputs : List (ℚ × Option ℤ))
    (h : ∀ x ∈ inputs, x.2 = none) :
    (presentsOf s inputs).Chain' (fun a b => a + 1/30 ≤ b) := by
  revert h
  induction inputs generalizing s with
  | nil =>
      intro _
      simp [presentsOf]
  | cons x rest ih =>
      intro h
      obtain ⟨now, req⟩ := x
      have hreq : req = none := h (now, req) (List.mem_cons_self _ _)
      subst hreq
      have h' : ∀ y ∈ rest, y.2 = (none : Option ℤ) :=
        fun y hy => h y (List.mem_cons_of_mem _ hy)
      by_cases hc : (1 : ℚ)/30 ≤ (now - s.start) - s.lastVideo
      · have hstep : clockStep s now none = ({ s with lastVideo := now - s.start }, true) := by
          rw [clockStep_none, if_pos hc]
        have hpres : presentsOf s ((now, none) :: rest) =
            now :: presentsOf { s with lastVideo := now - s.start } rest := by
          rw [presentsOf_cons, hstep]
          rfl
        rw [hpres]
        refine List.chain'_cons'.mpr ⟨?_, ih _ h'⟩
        intro b hb
        have hlow := presentsOf_head_lower rest { s with lastVideo := now - s.start } h' b hb
        simp only at hlow
        linarith
      · have hstep : clockStep s now none = (s, false) := by
          rw [clockStep_none, if_neg hc]
        have hpres : presentsOf s ((now, none) :: rest) = presentsOf s rest := by
          rw [presentsOf_cons, hstep]
          rfl
        rw [hpres]
        exact ih s h'

/-- Witness for C9's amended theorem: two seek-free iterations at wall
times 1 and 2 starting from anchor 0. -/
theorem c9_witness :
    (presentsOf ⟨0, 0⟩ [(1, none), (2, none)]).Chain' (fun a b => a + 1/30 ≤ b) :=
  c9_no_seek_cadence ⟨0, 0⟩ [(1, none), (2, none)] (by decide)

/-- C9 counterexample: a frame is presented at wall time 1; a seek to
10 s (seek_target = 10000000 µs) is processed in the iteration at wall
time 1.001 — whose gate still sees the stale video time (0.001 past the
last presentation, below 1/30), so no frame is presented there — and the
rebased anchor makes the next iteration, at wall time 1.002, see video
time 10.001 and present: two consecutive presentations only 1/500 s of
wall-clock time apart, violating the claimed 1/30 s separation. -/
theorem c9_counterexample :
    presentsOf ⟨0, 0⟩ [(1, none), (1001/1000, some 10000000), (501/500, none)] =
      [1, 501/500] ∧
    ¬ ((1 : ℚ) + 1/30 ≤ 501/500) := by
  have h1 : clockStep ⟨0, 0⟩ 1 none = (⟨0, 1⟩, true) := by
    rw [clockStep_none, if_pos (by norm_num)]
    simp only [Prod.mk.injEq, ClockState.mk.injEq]
    norm_num
  have h2 : clockStep ⟨0, 1⟩ (1001/1000) (some 10000000) = (⟨-8999/1000, 1⟩, false) := by
    unfold clockStep
    simp only
    rw [if_neg (by norm_num)]
    simp only [Prod.mk.injEq, ClockState.mk.injEq]
    push_cast
    norm_num
  have h3 : (clockStep ⟨-8999/1000, 1⟩ (501/500) none).2 = true := by
    rw [clockStep_none, if_pos (by norm_num)]
  constructor
  · rw [presentsOf_cons, h1]
    show 1 :: presentsOf ⟨0, 1⟩ [(1001/1000, some 10000000), (501/500, none)] =
      [1, 501/500]
    rw [presentsOf_cons, h2]
    show 1 :: presentsOf ⟨-8999/1000, 1⟩ [(501/500, none)] = [1, 501/500]
    rw [presentsOf_cons, h3]
    rfl
  · norm_num

/-! ## Theorems about the decode loop and presentation gate -/

/-- `avcodec_receive_frame` sourced from a queue pops exactly the head. -/
theorem Decoder.receive_eq {α : Type} (d : Decoder α) (f : α) (v' : Decoder α)
    (h : d.receive = some (f, v')) : d.queue = f :: v'.queue := by
  obtain ⟨q⟩ := d
  cases q with
  | nil => exact absurd h (by simp [Decoder.receive])
  | cons a t =>
      simp only [Decoder.receive, Option.some.injEq, Prod.mk.injEq] at h
      obtain ⟨rfl, rfl⟩ := h
      rfl

/-- C6 counterexample: a video packet unlocking two frames is sent with
a single receive call — the second frame stays queued (receive would
have returned it, not NeedsMorePackets); the next video packet is then
sent while the queue is still nonempty, and its receive returns the
leftover frame of the earlier packet. -/
theorem c6_video_single_receive_counterexample :
    ((decodeLoop ⟨[]⟩ ⟨[]⟩ ARB.empty [Packet.video [⟨some 0, 1⟩, ⟨some 0, 2⟩]]).map
        fun r => (r.1, r.2.1.queue)) = some (⟨some 0, 1⟩, [⟨some 0, 2⟩]) ∧
    ((decodeLoop ⟨[⟨some 0, 2⟩]⟩ ⟨[]⟩ ARB.empty [Packet.video [⟨some 0, 3⟩]]).map
        fun r => (r.1, r.2.1.queue)) = some (⟨some 0, 2⟩, [⟨some 0, 3⟩]) ∧
    ([⟨some 0, 2⟩] : List Frame) ≠ [] := by
  refine ⟨rfl, rfl, by decide⟩

/-- C6 amended: the audio path drains its decoder to empty before the
next packet is read, while the video path performs exactly one receive
per send — a send that finds or produces a nonempty queue hands back
exactly its head frame, leaving the rest queued. -/
theorem c6_drain_asymmetry :
    (∀ (adec : Decoder (List Nat)) (fs : List (List Nat)) (arb : ARB),
        ((audioPacketStep adec fs arb).1).queue = []) ∧
    (∀ (vdec : Decoder Frame) (fs : List Frame) (f : Frame) (v' : Decoder Frame),
        (vdec.send fs).receive = some (f, v') → vdec.queue ++ fs = f :: v'.queue) := by
  constructor
  · intro adec fs arb
    rfl
  · intro vdec fs f v' h
    exact Decoder.receive_eq _ _ _ h

/-- Witness for C6's amended theorem at concrete inputs: an audio packet
of one frame leaves an empty audio queue; a video send of two frames
followed by one receive returns the first and leaves the second. -/
theorem c6_drain_witness :
    ((audioPacketStep ⟨[]⟩ [[1, 2]] ARB.empty).1).queue = ([] : List (List Nat)) ∧
    (Decoder.mk [] : Decoder Frame).queue ++ [⟨some 0, 1⟩, ⟨some 0, 2⟩] =
      (⟨some 0, 1⟩ : Frame) :: (Decoder.mk [⟨some 0, 2⟩] : Decoder Frame).queue :=
  ⟨c6_drain_asymmetry.1 ⟨[]⟩ [[1, 2]] ARB.empty,
   c6_drain_asymmetry.2 ⟨[]⟩ [⟨some 0, 1⟩, ⟨some 0, 2⟩] ⟨some 0, 1⟩ ⟨[⟨some 0, 2⟩]⟩ rfl⟩

/-- C4 counterexample: a first frame with pts 1 is presented at wall
time 1 (so lastPresentedPts = 1); a second frame with pts 100 is decoded
at wall time 21/20.  The claimed condition now - anchor ≥ framePts -
lastPresentedPts is 21/20 ≥ 99, which is false, yet the code presents
the frame because 21/20 - 1 ≥ 1/30: the gate compares only wall-clock
cadence, never the decoded timestamps. -/
theorem c4_counterexample :
    playLoop ⟨[]⟩ ⟨[]⟩ ARB.empty 0 0
        [Packet.video [⟨some 1, 1⟩], Packet.video [⟨some 100, 2⟩]] [1, 21/20] =
      [(⟨some 1, 1⟩, true), (⟨some 100, 2⟩, true)] ∧
    ¬ ((21 : ℚ)/20 - 0 ≥ (100 : ℚ) - 1) := by
  have hd1 : decodeLoop (⟨[]⟩ : Decoder Frame) ⟨[]⟩ ARB.empty
      [Packet.video [⟨some 1, 1⟩], Packet.video [⟨some 100, 2⟩]] =
      some (⟨some 1, 1⟩, ⟨[]⟩, ⟨[]⟩, ARB.empty, [Packet.video [⟨some 100, 2⟩]]) := rfl
  have hd2 : decodeLoop (⟨[]⟩ : Decoder Frame) ⟨[]⟩ ARB.empty
      [Packet.video [⟨some 100, 2⟩]] =
      some (⟨some 100, 2⟩, ⟨[]⟩, ⟨[]⟩, ARB.empty, []) := rfl
  have hp1 : presentDecision ⟨some 1, 1⟩ ((1 : ℚ) - 0) 0 = true := by
    unfold presentDecision
    simp only [decide_eq_true_eq]
    norm_num
  have hp2 : presentDecision ⟨some 100, 2⟩ ((21 : ℚ)/20 - 0) ((1 : ℚ) - 0) = true := by
    unfold presentDecision
    simp only [decide_eq_true_eq]
    norm_num
  constructor
  · show playLoop ⟨[]⟩ ⟨[]⟩ ARB.empty 0 0
        [Packet.video [⟨some 1, 1⟩], Packet.video [⟨some 100, 2⟩]] (1 :: [21/20]) = _
    rw [playLoop, hd1]
    simp only
    rw [if_pos hp1]
    rw [playLoop, hd2]
    simp only
    rw [if_pos hp2]
    rfl
  · norm_num

/-- C4 amended: the presentation decision is a function of wall-clock
video time and the last presentation time alone — it is unchanged under
any replacement of the decoded frame, and it is true exactly when
video_time - last_video ≥ 1/30 (the cadence cap). -/
theorem c4_gate_cadence_only (f g : Frame) (videoTime lastVideo : ℚ) :
    presentDecision f videoTime lastVideo = presentDecision g videoTime lastVideo ∧
    (presentDecision f videoTime lastVideo = true ↔ (1 : ℚ)/30 ≤ videoTime - lastVideo) := by
  exact ⟨rfl, by simp [presentDecision]⟩

/-- C10: confirmed.  Along any steady-state run, each completed
iteration decodes exactly one video frame (one trace entry per consumed
time stamp), a frame failing the gate is dropped on the spot, and the
presented frames form a sublist of the decoded frames in order. -/
theorem c10_presented_sublist (vdec : Decoder Frame) (adec : Decoder (List Nat)) (arb : ARB)
    (start lastVideo : ℚ) (packets : List Packet) (times : List ℚ) :
    (((playLoop vdec adec arb start lastVideo packets times).filter fun x => x.2).map
        Prod.fst).Sublist
      ((playLoop vdec adec arb start lastVideo packets times).map Prod.fst) ∧
    (playLoop vdec adec arb start lastVideo packets times).length ≤ times.length := by
  constructor
  · exact List.Sublist.map Prod.fst (List.filter_sublist _)
  · induction times generalizing vdec adec arb lastVideo packets with
    | nil => simp [playLoop]
    | cons now ts ih =>
        cases hd : decodeLoop vdec adec arb packets with
        | none => simp [playLoop, hd]
        | some r =>
            obtain ⟨f, v', a', arb', rest⟩ := r
            by_cases hp : presentDecision f (now - start) lastVideo = true
            · simp only [playLoop, hd]
              rw [if_pos hp]
              simp only [List.length_cons]
              have := ih v' a' arb' (now - start) rest
              omega
            · simp only [playLoop, hd]
              rw [if_neg hp]
              simp only [List.length_cons]
              have := ih v' a' arb' lastVideo rest
              omega

/-! ## Theorems about seeking and exit codes -/

/-- C3: the seek block does flush both decoders, clear the flag, zero
both buffer cursors, and rebase the anchor so that elapsed wall time at
`now` equals the armed target (1 s for seek_target = 1000000 µs) — but
the position handed to `av_seek_frame` is seek_target * AV_TIME_BASE =
10^12, i.e. the already-microsecond target scaled by 10^6 a second time,
instead of the 10^6 consistent with the clock rebase. -/
theorem c3_seek_timestamp_mismatch :
    (seekStep 2 1000000 true ARB.empty).backward = true ∧
    (seekStep 2 1000000 true ARB.empty).vdecFlushed = true ∧
    (seekStep 2 1000000 true ARB.empty).adecFlushed = true ∧
    (seekStep 2 1000000 true ARB.empty).seekingAfter = false ∧
    (seekStep 2 1000000 true ARB.empty).arbAfter.index = 0 ∧
    (seekStep 2 1000000 true ARB.empty).arbAfter.size = 0 ∧
    (2 : ℚ) - (seekStep 2 1000000 true ARB.empty).newStart = 1 ∧
    (seekStep 2 1000000 true ARB.empty).tsArg = 1000000000000 ∧
    (seekStep 2 1000000 true ARB.empty).tsArg ≠ 1000000 := by
  refine ⟨rfl, rfl, rfl, rfl, rfl, rfl, ?_, by decide, by decide⟩
  norm_num [seekStep]

/-- C7: the usage, SDL-init, glfw-init and window failures all exit 1
and normal termination exits 0, but a file-open failure in
video_player.cpp exits 0 (run is void; main falls through to cleanup),
while video_player.c's runPlayer does exit 1 on the same failure. -/
theorem c7_exit_codes :
    mainCpp true true true true false = 0 ∧
    mainCpp true true true true false ≠ 1 ∧
    mainC true true true false = 1 ∧
    mainCpp false true true true true = 1 ∧
    mainCpp true false true true true = 1 ∧
    mainCpp true true false true true = 1 ∧
    mainCpp true true true false true = 1 ∧
    mainCpp true true true true true = 0 ∧
    mainC true true true true = 0 := by
  decide

/-- C8 counterexample: an audio codec-open failure does not abort the
session — open_file still succeeds, merely with the audio decoder
disabled; and even a video codec-open failure, which does abort the
session, leaves video_player.cpp's process exit code at 0. -/
theorem c8_counterexample :
    open_file true true true true true false = some false ∧
    (open_file true true true true true false).isSome = true ∧
    mainCpp true true true true ((open_file true true true false true true).isSome) = 0 := by
  decide

/-- C8 amended: a VIDEO codec-open failure aborts the session (open_file
fails for every audio configuration; video_player.c exits 1, while
video_player.cpp's process still exits 0 whatever happened in run); an
AUDIO codec-open failure is not fatal — the audio decoder is disabled
and the session proceeds without audio. -/
theorem c8_amended_codec_failure_policy :
    (∀ hasAudio aCodecOpenOk : Bool,
        open_file true true true false hasAudio aCodecOpenOk = none) ∧
    open_file true true true true true false = some false ∧
    mainC true true true false = 1 ∧
    (∀ openOk : Bool, mainCpp true true true true openOk = 0) := by
  refine ⟨fun a b => by cases a <;> cases b <;> rfl, rfl, rfl, fun o => by cases o <;> rfl⟩

end VideoPlayer
